import Mathlib

/-!
VideoKnife catalog engine — a shallow embedding of `database.py` (class `Album`).

File names are modelled as `List Char` (Python strings are sequences of
characters, and the name-collision loop manipulates them by index slicing).
Machine integers of the source (SQLite integers, Python ints) are modelled
as `Int`; Python ints are unbounded so no wrap-around modelling is needed.
Filesystem effects (copy/move/remove of video and image files) are outside
the catalog state; the boolean success of `cv2.imwrite` and the behaviour of
`cv2.VideoCapture` are modelled by an explicit frame-source parameter.
-/

namespace VideoKnife
/-- Fuel-driven recursion for `decimalRepr`; the fuel only serves structural
recursion and is irrelevant once it exceeds `n` (`decimalReprAux_congr`). -/
def decimalReprAux (fuel n : Nat) : List Char :=
  match fuel with
  | 0 => []
  | fuel + 1 =>
    if n < 10 then [Nat.digitChar n]
    else decimalReprAux fuel (n / 10) ++ [Nat.digitChar (n % 10)]

/-- Decimal digit characters of a natural number, mirroring Python `str(n)`
for `n >= 0` (as produced for the `f"({_idx})"` suffix in `add_video` and
`do_crop`). -/
def decimalRepr (n : Nat) : List Char :=
  decimalReprAux (n + 1) n

/-- Value of a decimal digit string, used to show `decimalRepr` is injective. -/
def decimalVal (l : List Char) : Nat :=
  l.foldl (fun a c => a * 10 + (c.toNat - 48)) 0

/-- Python `s.rfind(c)`: the greatest index at which `c` occurs, `-1` if none. -/
def pyRfind (s : List Char) (c : Char) : Int :=
  match s with
  | [] => -1
  | a :: rest =>
    let r := pyRfind rest c
    if 0 ≤ r then r + 1 else if a = c then 0 else -1

/-- The characters of the Python f-string `f"({i})"`. -/
def pySuffix (i : Nat) : List Char :=
  '(' :: (decimalRepr i ++ [')'])

/-- The `i`-th collision candidate,
`name[:name.rfind(".")] + f"({i})" + name[name.rfind("."):]`, with Python's
negative-index slicing semantics when `rfind` returns `-1`
(`s[:-1]`/`s[-1:]` split the string before its last character). -/
def candidateName (name : List Char) (i : Nat) : List Char :=
  let k := pyRfind name '.'
  let kk : Nat := if 0 ≤ k then k.toNat else name.length - 1
  name.take kk ++ (pySuffix i ++ name.drop kk)

/-- The collision loop of `add_video` (and of the image naming in `do_crop`):
starting from the desired name, while the current candidate is already taken
(the catalog query returns a nonempty row list), move to the next `"(n)"`
candidate.  `fuel` bounds the iteration count; `resolveName` below supplies
enough fuel for the loop, which in the source always terminates, to finish. -/
def resolveNameAux (taken : List (List Char)) (name cur : List Char) (idx fuel : Nat) :
    Option (List Char) :=
  match fuel with
  | 0 => none
  | fuel + 1 =>
    if taken.contains cur then resolveNameAux taken name (candidateName name idx) (idx + 1) fuel
    else some cur

/-- The candidates the loop examines, in order. -/
def examinedFrom (name cur : List Char) (idx fuel : Nat) : List (List Char) :=
  match fuel with
  | 0 => []
  | fuel + 1 => cur :: examinedFrom name (candidateName name idx) (idx + 1) fuel

/-- The name-collision loop shared by `add_video` and `do_crop`:
`_name = name; _idx = 1; while taken(_name): _name = candidate(name, _idx); _idx += 1`.
The fuel `taken.length + 2` always suffices (`aux_isSome`), so the `getD`
default is never used. -/
def resolveName (taken : List (List Char)) (name : List Char) : List Char :=
  (resolveNameAux taken name name 1 (taken.length + 2)).getD name

/-- A row of table `videos` (`VideoTable`). -/
structure VideoRow where
  idVideo : Int
  nameVideo : List Char
deriving DecidableEq

/-- A row of table `crop_definitions` (`CropDefinitionTable`).  The four
`pixel_*` columns are set all-or-none by `add_crop_definition`, so they are
modelled as one optional rectangle `(left, top, right, bottom)`. -/
structure CropDef where
  idDefinition : Int
  idVideo : Int
  description : String
  done : Bool
  indexStart : Int
  indexEnd : Int
  stepIndex : Int
  rect : Option (Int × Int × Int × Int)
deriving DecidableEq

/-- A row of table `images` (`ImageTable`). -/
structure ImageRow where
  idImage : Int
  idDefinition : Int
  nameImage : List Char
  indexInDefinition : Nat
deriving DecidableEq

/-- The committed catalog state of an `Album` plus the three in-memory
identifier counters (`self.max_id_video`, `self.max_id_definition`,
`self.max_id_image`). -/
structure AlbumState where
  videos : List VideoRow
  definitions : List CropDef
  images : List ImageRow
  maxIdVideo : Int
  maxIdDefinition : Int
  maxIdImage : Int
deriving DecidableEq

/-- `-1 if max_id is None else max_id`: the maximum of a list of ids with
sentinel `-1` for an empty table, as computed by `Album.__init__`. -/
def maxIdOf (l : List Int) : Int :=
  l.foldl max (-1)

/-- `Album.__init__` on an existing catalog: seed each counter from the
maximum identifier currently present in its table. -/
def openAlbum (videos : List VideoRow) (definitions : List CropDef)
    (images : List ImageRow) : AlbumState :=
  { videos := videos
    definitions := definitions
    images := images
    maxIdVideo := maxIdOf (videos.map (·.idVideo))
    maxIdDefinition := maxIdOf (definitions.map (·.idDefinition))
    maxIdImage := maxIdOf (images.map (·.idImage)) }

/-- `Album.add_video`.  `srcExists` models `os.path.exists(path_video)` and
`name` is `os.path.basename(path_video)`; the copy/move of the file itself is
a filesystem effect outside the catalog state.  Returns the reached state and
either the new video id or the raised error. -/
def add_video (srcExists : Bool) (name : List Char) (st : AlbumState) :
    AlbumState × Except String Int :=
  if srcExists = false then (st, .error "ファイルが存在しません")
  else
    let resolved := resolveName (st.videos.map (·.nameVideo)) name
    let idVideo := st.maxIdVideo + 1
    ({ st with videos := st.videos ++ [⟨idVideo, resolved⟩], maxIdVideo := idVideo },
      .ok idVideo)

/-- `Album.remove_crop_definition`: if the definition is `done`, delete its
image rows (and their files, a filesystem effect); then delete the
definition row. -/
def remove_crop_definition (idDefinition : Int) (st : AlbumState) :
    AlbumState × Except String Bool :=
  match st.definitions.find? (fun d => d.idDefinition == idDefinition) with
  | none => (st, .error "この切り出し定義IDは存在しません")
  | some defn =>
    let st1 :=
      if defn.done then
        { st with images := st.images.filter (fun im => im.idDefinition != idDefinition) }
      else st
    ({ st1 with
        definitions := st1.definitions.filter (fun d => d.idDefinition != idDefinition) },
      .ok true)

/-- The cascade loop of `Album.remove_video`: call `remove_crop_definition`
for each collected definition id, stopping at the state reached if one of the
calls raises. -/
def removeDefsRun (ids : List Int) (st : AlbumState) : AlbumState × Option String :=
  match ids with
  | [] => (st, none)
  | id :: rest =>
    match remove_crop_definition id st with
    | (st1, .ok _) => removeDefsRun rest st1
    | (st1, .error e) => (st1, some e)

/-- `Album.remove_video`: cascade-remove the owned definitions, then delete
the video file (filesystem effect) and its row. -/
def remove_video (idVideo : Int) (st : AlbumState) : AlbumState × Except String Bool :=
  match st.videos.find? (fun v => v.idVideo == idVideo) with
  | none => (st, .error "その動画IDは存在しません")
  | some _ =>
    let ids := (st.definitions.filter (fun d => d.idVideo == idVideo)).map (·.idDefinition)
    match removeDefsRun ids st with
    | (st1, some e) => (st1, .error e)
    | (st1, none) =>
      ({ st1 with videos := st1.videos.filter (fun v => v.idVideo != idVideo) }, .ok true)

/-- `Album.add_crop_definition`: after checking that the video id exists, the
slice triple and the optional rectangle are persisted as given, with
`done=False`; no further validation happens here. -/
def add_crop_definition (idVideo : Int) (slice : Int × Int × Int)
    (rect : Option (Int × Int × Int × Int)) (description : String)
    (st : AlbumState) : AlbumState × Except String Int :=
  if (st.videos.filter (fun v => v.idVideo == idVideo)).isEmpty then
    (st, .error "この動画IDは存在しません")
  else
    let idDefinition := st.maxIdDefinition + 1
    ({ st with
        definitions := st.definitions ++
          [⟨idDefinition, idVideo, description, false, slice.1, slice.2.1, slice.2.2, rect⟩],
        maxIdDefinition := idDefinition },
      .ok idDefinition)

/-- What happens at one frame index inside the extraction loop of `do_crop`:
`cap.read` reports failure (per-frame skip), `cv2.imwrite` reports failure
(per-frame skip), both succeed, or an exception is thrown at the start of the
iteration (the unrecoverable case caught by the bare `except`). -/
inductive FrameEvent where
  | readFail
  | writeFail
  | ok
  | fatal
deriving DecidableEq

/-- The opened-video abstraction for one file: `cv2.VideoCapture` properties
and the per-frame behaviour of `cap.read`/`cv2.imwrite`. -/
structure FrameSource where
  opened : Bool
  frameCount : Int
  width : Int
  height : Int
  events : Int → FrameEvent

/-- Fuel-driven recursion for `pyRange`; any fuel at least `stop - start`
yields the same list (`pyRangeAux_congr`). -/
def pyRangeAux (step : Int) : Nat → Int → Int → List Int
  | 0, _, _ => []
  | fuel + 1, start, stop =>
    if 0 < step ∧ start < stop then start :: pyRangeAux step fuel (start + step) stop
    else []

/-- Python `range(start, stop, step)` for a positive step (the only case
reached in `do_crop`, which raises on `step < 1` first; for a non-positive
step the result is irrelevant and taken empty). -/
def pyRange (start stop step : Int) : List Int :=
  pyRangeAux step (stop - start).toNat start stop

/-- The effective crop rectangle of `do_crop`: the full frame when the
definition has no rectangle, otherwise the definition's rectangle clamped to
the frame (`max` on left/top, `min` on right/bottom). -/
def effectiveRect (rect : Option (Int × Int × Int × Int)) (width height : Int) :
    Int × Int × Int × Int :=
  match rect with
  | none => (0, 0, width, height)
  | some (l, t, r, b) => (max 0 l, max 0 t, min width r, min height b)

/-- Python `str(n)` for an `Int`. -/
def intRepr (n : Int) : List Char :=
  if n < 0 then '-' :: decimalRepr (-n).toNat else decimalRepr n.toNat

/-- Python format spec `0>w` applied to `str(n)`: left-pad with `'0'` to
width `w`. -/
def padZeros (w : Nat) (s : List Char) : List Char :=
  List.replicate (w - s.length) '0' ++ s

/-- The candidate image file name of `do_crop`:
`f"{id_video:0>6d}_{idx:0>8d}_{l:0>4d},{t:0>4d},{r:0>4d},{b:0>4d}.jpg"`. -/
def imageBaseName (idVideo : Int) (idx : Int) (rect : Int × Int × Int × Int) :
    List Char :=
  padZeros 6 (intRepr idVideo) ++
    ('_' :: padZeros 8 (intRepr idx)) ++
    ('_' :: padZeros 4 (intRepr rect.1)) ++
    (',' :: padZeros 4 (intRepr rect.2.1)) ++
    (',' :: padZeros 4 (intRepr rect.2.2.1)) ++
    (',' :: padZeros 4 (intRepr rect.2.2.2)) ++ ".jpg".data

/-- Result of the extraction loop: the image rows pending in the session, the
in-memory image-id counter, the frame indices at which `cap.read` was
attempted, and whether an exception interrupted the loop. -/
structure LoopResult where
  pending : List ImageRow
  maxIdImage : Int
  reads : List Int
  fatal : Bool
deriving DecidableEq

/-- The `for it, idx in enumerate(range(...))` loop of `do_crop`.  Name
resolution queries the session, which sees the committed rows `dbImages`
plus the rows pending from earlier iterations.  On a `writeFail` the name
resolution also runs in the source, but it has no effect on the state; on a
`fatal` event the iteration throws before reading. -/
def cropLoop (ev : Int → FrameEvent) (idDefinition idVideo : Int)
    (rect : Int × Int × Int × Int) (dbImages : List ImageRow)
    (indices : List Int) (it : Nat) (pending : List ImageRow)
    (maxIdImage : Int) : LoopResult :=
  match indices with
  | [] => ⟨pending, maxIdImage, [], false⟩
  | idx :: rest =>
    match ev idx with
    | .fatal => ⟨pending, maxIdImage, [], true⟩
    | .readFail =>
      let r := cropLoop ev idDefinition idVideo rect dbImages rest (it + 1) pending maxIdImage
      { r with reads := idx :: r.reads }
    | .writeFail =>
      let r := cropLoop ev idDefinition idVideo rect dbImages rest (it + 1) pending maxIdImage
      { r with reads := idx :: r.reads }
    | .ok =>
      let nameImg := resolveName ((dbImages ++ pending).map (·.nameImage))
        (imageBaseName idVideo idx rect)
      let idImage := maxIdImage + 1
      let row : ImageRow := ⟨idImage, idDefinition, nameImg, it⟩
      let r := cropLoop ev idDefinition idVideo rect dbImages rest (it + 1)
        (pending ++ [row]) idImage
      { r with reads := idx :: r.reads }

instance {ε α : Type} [DecidableEq ε] [DecidableEq α] : DecidableEq (Except ε α) :=
  fun a b =>
    match a, b with
    | .ok x, .ok y =>
      if h : x = y then .isTrue (by rw [h]) else .isFalse (by intro hc; cases hc; exact h rfl)
    | .error x, .error y =>
      if h : x = y then .isTrue (by rw [h]) else .isFalse (by intro hc; cases hc; exact h rfl)
    | .ok _, .error _ => .isFalse (by intro hc; cases hc)
    | .error _, .ok _ => .isFalse (by intro hc; cases hc)

/-- Outcome of `do_crop`: the reached catalog state, the returned value or
raised error, and the frame indices at which a read was attempted. -/
structure CropOutcome where
  state : AlbumState
  result : Except String Bool
  reads : List Int
deriving DecidableEq

/-- `Album.do_crop`.  `src` maps a video file name to its opened frame
source (`cv2.VideoCapture(path_video)`).  On an exception inside the loop the
bare `except` restores `self.max_id_image` and rolls the session back, and
the call still commits and returns `True`. -/
def do_crop (src : List Char → FrameSource) (idDefinition : Int) (st : AlbumState) :
    CropOutcome :=
  match st.definitions.find? (fun d => d.idDefinition == idDefinition) with
  | none => ⟨st, .error "この切り出し定義IDは存在しません", []⟩
  | some defn =>
    if defn.done then ⟨st, .ok true, []⟩
    else
      match st.videos.find? (fun v => v.idVideo == defn.idVideo) with
      | none => ⟨st, .error "NoResultFound", []⟩
      | some video =>
        let cam := src video.nameVideo
        if cam.opened = false then ⟨st, .error "動画が開ません", []⟩
        else
          let rect := effectiveRect defn.rect cam.width cam.height
          if rect.2.2.1 ≤ rect.1 ∨ rect.2.2.2 ≤ rect.2.1 then
            ⟨st, .error "矩形で切り出す範囲が0px以下になっています", []⟩
          else
            let idxStart := defn.indexStart
            let idxEnd := min defn.indexEnd cam.frameCount
            let step := defn.stepIndex
            if idxStart < 0 ∨ step < 1 then
              ⟨st, .error "切り出しフレーム番号の指定が不正です", []⟩
            else
              let idImageTmp := st.maxIdImage
              let r := cropLoop cam.events idDefinition defn.idVideo rect st.images
                (pyRange idxStart idxEnd step) 0 [] st.maxIdImage
              if r.fatal then
                ⟨{ st with maxIdImage := idImageTmp }, .ok true, r.reads⟩
              else
                ⟨{ st with
                    images := st.images ++ r.pending,
                    definitions := st.definitions.map (fun d =>
                      if d.idDefinition == idDefinition then { d with done := true } else d),
                    maxIdImage := r.maxIdImage },
                  .ok true, r.reads⟩

/-- The definition ids `do_crop_all` collects: every definition with
`done == False`. -/
def pendingIds (st : AlbumState) : List Int :=
  (st.definitions.filter (fun d => d.done == false)).map (·.idDefinition)

/-- The sweep loop of `do_crop_all`: run `do_crop` for each collected id in
order; an exception raised by `do_crop` propagates, stopping the sweep at the
state reached. -/
def doCropListRun (src : List Char → FrameSource) (ids : List Int) (st : AlbumState) :
    AlbumState × Option String :=
  match ids with
  | [] => (st, none)
  | id :: rest =>
    let r := do_crop src id st
    match r.result with
    | .ok _ => doCropListRun src rest r.state
    | .error e => (r.state, some e)

/-- `Album.do_crop_all`. -/
def do_crop_all (src : List Char → FrameSource) (st : AlbumState) :
    AlbumState × Except String Bool :=
  match doCropListRun src (pendingIds st) st with
  | (st1, none) => (st1, .ok true)
  | (st1, some e) => (st1, .error e)

/-- One public mutating operation of the `Album` facade, for stating
whole-session invariants. -/
inductive AlbumOp where
  | addVideo (srcExists : Bool) (name : List Char)
  | removeVideo (id : Int)
  | addCropDefinition (idVideo : Int) (slice : Int × Int × Int)
      (rect : Option (Int × Int × Int × Int)) (description : String)
  | removeCropDefinition (id : Int)
  | doCrop (src : List Char → FrameSource) (id : Int)
  | doCropAll (src : List Char → FrameSource)

/-- The state reached by one operation (on a raised error: the state at the
moment of the raise). -/
def applyOp (op : AlbumOp) (st : AlbumState) : AlbumState :=
  match op with
  | .addVideo ex n => (add_video ex n st).1
  | .removeVideo i => (remove_video i st).1
  | .addCropDefinition v s r d => (add_crop_definition v s r d st).1
  | .removeCropDefinition i => (remove_crop_definition i st).1
  | .doCrop src i => (do_crop src i st).state
  | .doCropAll src => (do_crop_all src st).1

/-- The state reached by a sequence of operations. -/
def applyOps (ops : List AlbumOp) (st : AlbumState) : AlbumState :=
  ops.foldl (fun s op => applyOp op s) st

/-- Componentwise order on the three identifier counters. -/
def countersLe (s t : AlbumState) : Prop :=
  s.maxIdVideo ≤ t.maxIdVideo ∧ s.maxIdDefinition ≤ t.maxIdDefinition ∧
    s.maxIdImage ≤ t.maxIdImage

/-- Pairwise-distinct stored file names within each namespace, over the rows
currently present in the catalog. -/
def nodupNames (st : AlbumState) : Prop :=
  (st.videos.map (·.nameVideo)).Nodup ∧ (st.images.map (·.nameImage)).Nodup

theorem decimalReprAux_congr :
    ∀ (f₁ f₂ n : Nat), n < f₁ → n < f₂ → decimalReprAux f₁ n = decimalReprAux f₂ n := by
  intro f₁
  induction f₁ with
  | zero => intro f₂ n h1; omega
  | succ g ih =>
    intro f₂ n h1 h2
    obtain ⟨h, rfl⟩ : ∃ h, f₂ = h + 1 := ⟨f₂ - 1, by omega⟩
    rw [decimalReprAux, decimalReprAux]
    by_cases hn : n < 10
    · rw [if_pos hn, if_pos hn]
    · rw [if_neg hn, if_neg hn]
      have hd : n / 10 < n := Nat.div_lt_self (by omega) (by omega)
      rw [ih h (n / 10) (by omega) (by omega)]

/-- The recursive unfolding of `decimalRepr`. -/
theorem decimalRepr_eq (n : Nat) :
    decimalRepr n =
      if n < 10 then [Nat.digitChar n]
      else decimalRepr (n / 10) ++ [Nat.digitChar (n % 10)] := by
  rw [decimalRepr, decimalReprAux]
  by_cases hn : n < 10
  · rw [if_pos hn, if_pos hn]
  · rw [if_neg hn, if_neg hn, decimalRepr]
    have hd : n / 10 < n := Nat.div_lt_self (by omega) (by omega)
    rw [decimalReprAux_congr n (n / 10 + 1) (n / 10) (by omega) (by omega)]

theorem digitChar_toNat {d : Nat} (h : d < 10) : (Nat.digitChar d).toNat = 48 + d := by
  interval_cases d <;> rfl

theorem decimalVal_append (l : List Char) (c : Char) :
    decimalVal (l ++ [c]) = (decimalVal l) * 10 + (c.toNat - 48) := by
  simp [decimalVal, List.foldl_append]

theorem decimalVal_decimalRepr (n : Nat) : decimalVal (decimalRepr n) = n := by
  induction n using Nat.strong_induction_on with
  | _ n ih =>
    rw [decimalRepr_eq]
    split
    · next h =>
      simp [decimalVal, digitChar_toNat h]
    · next h =>
      have hd : n / 10 < n := Nat.div_lt_self (by omega) (by omega)
      rw [decimalVal_append, ih (n / 10) hd, digitChar_toNat (by omega)]
      omega

theorem decimalRepr_injective : Function.Injective decimalRepr := by
  intro a b h
  have h2 := congrArg decimalVal h
  simpa [decimalVal_decimalRepr] using h2

theorem decimalRepr_ne_nil (n : Nat) : decimalRepr n ≠ [] := by
  rw [decimalRepr_eq]
  split <;> simp

theorem candidateName_length (name : List Char) (i : Nat) :
    (candidateName name i).length = name.length + (decimalRepr i).length + 2 := by
  simp [candidateName, pySuffix]
  omega

theorem length_lt_candidateName (name : List Char) (i : Nat) :
    name.length < (candidateName name i).length := by
  have h := List.length_pos.mpr (decimalRepr_ne_nil i)
  rw [candidateName_length]
  omega

theorem candidateName_injective (name : List Char) :
    Function.Injective (candidateName name) := by
  intro i j h
  unfold candidateName at h
  have h1 := List.append_cancel_left h
  have h2 := List.append_cancel_right h1
  unfold pySuffix at h2
  have h3 := List.append_cancel_right (List.cons_injective h2)
  exact decimalRepr_injective h3

theorem aux_eq_none_all_taken {taken : List (List Char)} {name : List Char} :
    ∀ {fuel idx : Nat} {cur : List Char},
      resolveNameAux taken name cur idx fuel = none →
      ∀ x ∈ examinedFrom name cur idx fuel, taken.contains x = true := by
  intro fuel
  induction fuel with
  | zero => intro idx cur _ x hx; simp [examinedFrom] at hx
  | succ fuel ih =>
    intro idx cur hnone x hx
    rw [resolveNameAux] at hnone
    by_cases hc : taken.contains cur
    · rw [if_pos hc] at hnone
      rw [examinedFrom] at hx
      rcases List.mem_cons.mp hx with h | h
      · subst h; exact hc
      · exact ih hnone x h
    · rw [if_neg hc] at hnone
      exact absurd hnone (by simp)

theorem examinedFrom_eq_map (name : List Char) :
    ∀ (fuel idx : Nat),
      examinedFrom name (candidateName name idx) (idx + 1) fuel
        = (List.range' idx fuel).map (candidateName name) := by
  intro fuel
  induction fuel with
  | zero => intro idx; simp [examinedFrom]
  | succ fuel ih =>
    intro idx
    rw [examinedFrom, List.range'_succ, List.map_cons, ih (idx + 1)]

theorem aux_isSome (taken : List (List Char)) (name : List Char) :
    (resolveNameAux taken name name 1 (taken.length + 2)).isSome := by
  rw [Option.isSome_iff_ne_none]
  intro hnone
  have hall := aux_eq_none_all_taken hnone
  rw [examinedFrom, examinedFrom_eq_map] at hall
  set L : List (List Char) := name :: (List.range' 1 (taken.length + 1)).map (candidateName name) with hL
  have hndL : L.Nodup := by
    rw [hL, List.nodup_cons]
    constructor
    · intro hmem
      rcases List.mem_map.mp hmem with ⟨i, _, hi⟩
      have := length_lt_candidateName name i
      rw [hi] at this
      omega
    · exact (List.nodup_range' _ _).map (candidateName_injective name)
  have hsub : L.toFinset ⊆ taken.toFinset := by
    intro x hx
    have hxL : x ∈ L := List.mem_toFinset.mp hx
    have := hall x hxL
    exact List.mem_toFinset.mpr (by simpa using this)
  have h1 : L.toFinset.card = L.length := List.toFinset_card_of_nodup hndL
  have h2 := Finset.card_le_card hsub
  have h3 : taken.toFinset.card ≤ taken.length := taken.toFinset_card_le
  have h4 : L.length = taken.length + 2 := by simp [hL]
  omega

theorem aux_some_not_taken {taken : List (List Char)} {name : List Char} :
    ∀ {fuel idx : Nat} {cur r : List Char},
      resolveNameAux taken name cur idx fuel = some r →
      taken.contains r = false := by
  intro fuel
  induction fuel with
  | zero => intro idx cur r h; simp [resolveNameAux] at h
  | succ fuel ih =>
    intro idx cur r h
    rw [resolveNameAux] at h
    by_cases hc : taken.contains cur
    · rw [if_pos hc] at h
      exact ih h
    · rw [if_neg hc] at h
      have : cur = r := by simpa using h
      subst this
      exact Bool.eq_false_iff.mpr hc

theorem resolveName_not_taken (taken : List (List Char)) (name : List Char) :
    taken.contains (resolveName taken name) = false := by
  obtain ⟨r, hr⟩ := Option.isSome_iff_exists.mp (aux_isSome taken name)
  unfold resolveName
  rw [hr]
  exact aux_some_not_taken hr

theorem resolveName_not_mem (taken : List (List Char)) (name : List Char) :
    resolveName taken name ∉ taken := by
  intro hmem
  have h := resolveName_not_taken taken name
  have h2 : taken.contains (resolveName taken name) = true :=
    List.elem_eq_true_of_mem hmem
  rw [h] at h2
  exact Bool.noConfusion h2

theorem pyRangeAux_congr {step : Int} :
    ∀ (f₁ f₂ : Nat) (start stop : Int),
      (stop - start).toNat ≤ f₁ → (stop - start).toNat ≤ f₂ →
      pyRangeAux step f₁ start stop = pyRangeAux step f₂ start stop := by
  intro f₁
  induction f₁ with
  | zero =>
    intro f₂ start stop h1 _
    have hns : ¬ (0 < step ∧ start < stop) := by
      intro ⟨_, h⟩
      omega
    cases f₂ with
    | zero => rfl
    | succ h => rw [pyRangeAux, pyRangeAux, if_neg hns]
  | succ g ih =>
    intro f₂ start stop h1 h2
    cases f₂ with
    | zero =>
      have hns : ¬ (0 < step ∧ start < stop) := by
        intro ⟨_, h⟩
        omega
      rw [pyRangeAux, pyRangeAux, if_neg hns]
    | succ h =>
      rw [pyRangeAux, pyRangeAux]
      by_cases hc : 0 < step ∧ start < stop
      · rw [if_pos hc, if_pos hc, ih h (start + step) stop (by omega) (by omega)]
      · rw [if_neg hc, if_neg hc]

/-- The recursive unfolding of `pyRange`. -/
theorem pyRange_eq (start stop step : Int) :
    pyRange start stop step =
      if 0 < step ∧ start < stop then start :: pyRange (start + step) stop step
      else [] := by
  by_cases hc : 0 < step ∧ start < stop
  · obtain ⟨f, hf⟩ : ∃ f, (stop - start).toNat = f + 1 := ⟨(stop - start).toNat - 1, by omega⟩
    rw [pyRange, hf, pyRangeAux, if_pos hc, if_pos hc, pyRange]
    have h2 : (stop - (start + step)).toNat ≤ f := by omega
    rw [pyRangeAux_congr f ((stop - (start + step)).toNat) (start + step) stop h2 (le_refl _)]
  · rw [if_neg hc, pyRange]
    cases h : (stop - start).toNat with
    | zero => rfl
    | succ f => rw [pyRangeAux, if_neg hc]

theorem cropLoop_fatal_of_mem (ev : Int → FrameEvent) (idDefinition idVideo : Int)
    (rect : Int × Int × Int × Int) (dbImages : List ImageRow) :
    ∀ (indices : List Int) (it : Nat) (pending : List ImageRow) (maxIdImage : Int),
      (∃ idx ∈ indices, ev idx = .fatal) →
      (cropLoop ev idDefinition idVideo rect dbImages indices it pending maxIdImage).fatal
        = true := by
  intro indices
  induction indices with
  | nil =>
    intro it pending maxIdImage h
    obtain ⟨idx, hmem, _⟩ := h
    simp at hmem
  | cons idx rest ih =>
    intro it pending maxIdImage h
    obtain ⟨j, hmem, hj⟩ := h
    rw [cropLoop]
    rcases List.mem_cons.mp hmem with rfl | hmemr
    · rw [hj]
    · cases hev : ev idx <;> dsimp only <;>
        exact ih _ _ _ ⟨j, hmemr, hj⟩

theorem cropLoop_reads_of_no_fatal (ev : Int → FrameEvent) (idDefinition idVideo : Int)
    (rect : Int × Int × Int × Int) (dbImages : List ImageRow) :
    ∀ (indices : List Int) (it : Nat) (pending : List ImageRow) (maxIdImage : Int),
      (∀ idx ∈ indices, ev idx ≠ .fatal) →
      (cropLoop ev idDefinition idVideo rect dbImages indices it pending maxIdImage).reads
        = indices := by
  intro indices
  induction indices with
  | nil => intro it pending maxIdImage _; rw [cropLoop]
  | cons idx rest ih =>
    intro it pending maxIdImage h
    have htl : ∀ j ∈ rest, ev j ≠ .fatal := fun j hj => h j (List.mem_cons_of_mem idx hj)
    rw [cropLoop]
    cases hev : ev idx <;> dsimp only
    · rw [ih _ _ _ htl]
    · rw [ih _ _ _ htl]
    · rw [ih _ _ _ htl]
    · exact absurd hev (h idx (List.mem_cons_self idx rest))

theorem cropLoop_maxIdImage_le (ev : Int → FrameEvent) (idDefinition idVideo : Int)
    (rect : Int × Int × Int × Int) (dbImages : List ImageRow) :
    ∀ (indices : List Int) (it : Nat) (pending : List ImageRow) (maxIdImage : Int),
      maxIdImage ≤
        (cropLoop ev idDefinition idVideo rect dbImages indices it pending maxIdImage).maxIdImage := by
  intro indices
  induction indices with
  | nil => intro it pending maxIdImage; rw [cropLoop]
  | cons idx rest ih =>
    intro it pending maxIdImage
    rw [cropLoop]
    cases hev : ev idx <;> dsimp only
    · exact ih _ _ _
    · exact ih _ _ _
    · refine le_trans ?_ (ih (it + 1) _ (maxIdImage + 1))
      omega
    · exact le_refl _

theorem cropLoop_names_nodup (ev : Int → FrameEvent) (idDefinition idVideo : Int)
    (rect : Int × Int × Int × Int) (dbImages : List ImageRow) :
    ∀ (indices : List Int) (it : Nat) (pending : List ImageRow) (maxIdImage : Int),
      ((dbImages ++ pending).map (·.nameImage)).Nodup →
      ((dbImages ++
          (cropLoop ev idDefinition idVideo rect dbImages indices it pending maxIdImage).pending).map
        (·.nameImage)).Nodup := by
  intro indices
  induction indices with
  | nil => intro it pending maxIdImage h; rw [cropLoop]; exact h
  | cons idx rest ih =>
    intro it pending maxIdImage h
    rw [cropLoop]
    cases hev : ev idx <;> dsimp only
    · exact ih _ _ _ h
    · exact ih _ _ _ h
    · apply ih
      rw [← List.append_assoc, List.map_append, List.map_append]
      simp only [List.map_cons, List.map_nil]
      rw [List.nodup_append]
      refine ⟨by rw [← List.map_append]; exact h, List.nodup_singleton _, ?_⟩
      intro x hx hx1
      simp only [List.mem_singleton] at hx1
      subst hx1
      rw [← List.map_append] at hx
      exact resolveName_not_mem _ _ hx
    · exact h

theorem mem_pyRange_mp {step idx : Int} (hstep : 0 < step) :
    ∀ (n : Nat) (start stop : Int), (stop - start).toNat = n →
      idx ∈ pyRange start stop step →
      ∃ k : Nat, idx = start + (k : Int) * step ∧ idx < stop := by
  intro n
  induction n using Nat.strong_induction_on with
  | _ n ih =>
    intro start stop hn hmem
    rw [pyRange_eq] at hmem
    by_cases hc : 0 < step ∧ start < stop
    · rw [if_pos hc] at hmem
      rcases List.mem_cons.mp hmem with rfl | hmemr
      · exact ⟨0, by simp, hc.2⟩
      · have hlt : (stop - (start + step)).toNat < n := by omega
        obtain ⟨k, hk, hk2⟩ := ih _ hlt (start + step) stop rfl hmemr
        refine ⟨k + 1, ?_, hk2⟩
        push_cast
        linarith
    · rw [if_neg hc] at hmem
      simp at hmem

theorem mem_pyRange_mpr {step idx : Int} (hstep : 0 < step) :
    ∀ (k : Nat) (start stop : Int), idx = start + (k : Int) * step → idx < stop →
      idx ∈ pyRange start stop step := by
  intro k
  induction k with
  | zero =>
    intro start stop hk hlt
    simp only [Nat.cast_zero, zero_mul, add_zero] at hk
    subst hk
    rw [pyRange_eq, if_pos ⟨hstep, hlt⟩]
    exact List.mem_cons_self _ _
  | succ k ih =>
    intro start stop hk hlt
    have hk2 : idx = (start + step) + (k : Int) * step := by
      push_cast at hk
      linarith
    have hstart : start < stop := by
      have hge : (0 : Int) ≤ (k : Int) * step :=
        mul_nonneg (by positivity) (by omega)
      omega
    rw [pyRange_eq, if_pos ⟨hstep, hstart⟩]
    exact List.mem_cons_of_mem _ (ih (start + step) stop hk2 hlt)

theorem mem_pyRange {start stop step idx : Int} (hstep : 0 < step) :
    idx ∈ pyRange start stop step ↔
      (∃ k : Nat, idx = start + (k : Int) * step) ∧ idx < stop := by
  constructor
  · intro hmem
    obtain ⟨k, hk, hk2⟩ := mem_pyRange_mp hstep ((stop - start).toNat) start stop rfl hmem
    exact ⟨⟨k, hk⟩, hk2⟩
  · intro ⟨⟨k, hk⟩, hlt⟩
    exact mem_pyRange_mpr hstep k start stop hk hlt

theorem do_crop_eq_run (src : List Char → FrameSource) (idDefinition : Int)
    (st : AlbumState) (defn : CropDef) (video : VideoRow)
    (hdef : st.definitions.find? (fun d => d.idDefinition == idDefinition) = some defn)
    (hdone : defn.done = false)
    (hvid : st.videos.find? (fun v => v.idVideo == defn.idVideo) = some video)
    (hopen : (src video.nameVideo).opened = true)
    (hrect :
      ¬((effectiveRect defn.rect (src video.nameVideo).width (src video.nameVideo).height).2.2.1
          ≤ (effectiveRect defn.rect (src video.nameVideo).width (src video.nameVideo).height).1
        ∨ (effectiveRect defn.rect (src video.nameVideo).width (src video.nameVideo).height).2.2.2
          ≤ (effectiveRect defn.rect (src video.nameVideo).width (src video.nameVideo).height).2.1))
    (hrange : ¬(defn.indexStart < 0 ∨ defn.stepIndex < 1)) :
    do_crop src idDefinition st =
      (let cam := src video.nameVideo
       let rect := effectiveRect defn.rect cam.width cam.height
       let r := cropLoop cam.events idDefinition defn.idVideo rect st.images
         (pyRange defn.indexStart (min defn.indexEnd cam.frameCount) defn.stepIndex)
         0 [] st.maxIdImage
       if r.fatal then ⟨st, .ok true, r.reads⟩
       else
         ⟨{ st with
             images := st.images ++ r.pending,
             definitions := st.definitions.map (fun d =>
               if d.idDefinition == idDefinition then { d with done := true } else d),
             maxIdImage := r.maxIdImage },
           .ok true, r.reads⟩) := by
  rw [do_crop, hdef]
  dsimp only
  rw [hdone, hvid]
  dsimp only
  rw [hopen]
  rw [if_neg hrect, if_neg hrange]
  simp

theorem countersLe_refl (st : AlbumState) : countersLe st st :=
  ⟨le_refl _, le_refl _, le_refl _⟩

theorem countersLe_trans {s t u : AlbumState} (h1 : countersLe s t) (h2 : countersLe t u) :
    countersLe s u :=
  ⟨le_trans h1.1 h2.1, le_trans h1.2.1 h2.2.1, le_trans h1.2.2 h2.2.2⟩

theorem counters_add_video (ex : Bool) (n : List Char) (st : AlbumState) :
    countersLe st (add_video ex n st).1 := by
  rw [add_video]
  split
  · exact countersLe_refl st
  · exact ⟨by change st.maxIdVideo ≤ st.maxIdVideo + 1; omega, le_refl _, le_refl _⟩

theorem counters_remove_crop_definition (i : Int) (st : AlbumState) :
    countersLe st (remove_crop_definition i st).1 := by
  rw [remove_crop_definition]
  split
  · exact countersLe_refl st
  · dsimp only
    split <;> exact ⟨le_refl _, le_refl _, le_refl _⟩

theorem counters_removeDefsRun :
    ∀ (ids : List Int) (st : AlbumState), countersLe st (removeDefsRun ids st).1 := by
  intro ids
  induction ids with
  | nil => intro st; exact countersLe_refl st
  | cons id rest ih =>
    intro st
    rw [removeDefsRun]
    split
    · next st1 b heq =>
      have h1 : countersLe st st1 := by
        have h2 := counters_remove_crop_definition id st
        rw [heq] at h2
        exact h2
      exact countersLe_trans h1 (ih st1)
    · next st1 e heq =>
      have h2 := counters_remove_crop_definition id st
      rw [heq] at h2
      exact h2

theorem counters_remove_video (i : Int) (st : AlbumState) :
    countersLe st (remove_video i st).1 := by
  rw [remove_video]
  split
  · exact countersLe_refl st
  · dsimp only
    split
    · next st1 e heq =>
      have h2 := counters_removeDefsRun
        ((st.definitions.filter (fun d => d.idVideo == i)).map (·.idDefinition)) st
      rw [heq] at h2
      exact h2
    · next st1 heq =>
      have h2 := counters_removeDefsRun
        ((st.definitions.filter (fun d => d.idVideo == i)).map (·.idDefinition)) st
      rw [heq] at h2
      exact ⟨h2.1, h2.2.1, h2.2.2⟩

theorem counters_add_crop_definition (v : Int) (s : Int × Int × Int)
    (r : Option (Int × Int × Int × Int)) (d : String) (st : AlbumState) :
    countersLe st (add_crop_definition v s r d st).1 := by
  rw [add_crop_definition]
  split
  · exact countersLe_refl st
  · exact ⟨le_refl _, by change st.maxIdDefinition ≤ st.maxIdDefinition + 1; omega, le_refl _⟩

theorem counters_do_crop (src : List Char → FrameSource) (i : Int) (st : AlbumState) :
    countersLe st (do_crop src i st).state := by
  rw [do_crop]
  dsimp only
  repeat' split
  all_goals
    first
      | exact countersLe_refl st
      | exact ⟨le_refl _, le_refl _, le_refl _⟩
      | exact ⟨le_refl _, le_refl _, cropLoop_maxIdImage_le _ _ _ _ _ _ _ _ _⟩

theorem counters_doCropListRun (src : List Char → FrameSource) :
    ∀ (ids : List Int) (st : AlbumState), countersLe st (doCropListRun src ids st).1 := by
  intro ids
  induction ids with
  | nil => intro st; exact countersLe_refl st
  | cons id rest ih =>
    intro st
    rw [doCropListRun]
    split
    · exact countersLe_trans (counters_do_crop src id st) (ih _)
    · exact counters_do_crop src id st

theorem counters_do_crop_all (src : List Char → FrameSource) (st : AlbumState) :
    countersLe st (do_crop_all src st).1 := by
  rw [do_crop_all]
  split
  · next st1 heq =>
    have h2 := counters_doCropListRun src (pendingIds st) st
    rw [heq] at h2
    exact h2
  · next st1 e heq =>
    have h2 := counters_doCropListRun src (pendingIds st) st
    rw [heq] at h2
    exact h2

theorem counters_applyOp (op : AlbumOp) (st : AlbumState) :
    countersLe st (applyOp op st) := by
  cases op with
  | addVideo ex n => exact counters_add_video ex n st
  | removeVideo i => exact counters_remove_video i st
  | addCropDefinition v s r d => exact counters_add_crop_definition v s r d st
  | removeCropDefinition i => exact counters_remove_crop_definition i st
  | doCrop src i => exact counters_do_crop src i st
  | doCropAll src => exact counters_do_crop_all src st

theorem counters_applyOps :
    ∀ (ops : List AlbumOp) (st : AlbumState), countersLe st (applyOps ops st) := by
  intro ops
  induction ops with
  | nil => intro st; exact countersLe_refl st
  | cons op rest ih =>
    intro st
    exact countersLe_trans (counters_applyOp op st) (ih (applyOp op st))

theorem add_crop_definition_ok {v : Int} {s : Int × Int × Int}
    {r : Option (Int × Int × Int × Int)} {d : String} {st st1 : AlbumState} {id : Int}
    (h : add_crop_definition v s r d st = (st1, .ok id)) :
    id = st.maxIdDefinition + 1 ∧ st1.maxIdDefinition = id := by
  rw [add_crop_definition] at h
  by_cases hc : (st.videos.filter (fun w => w.idVideo == v)).isEmpty
  · rw [if_pos hc] at h
    have h2 := congrArg Prod.snd h
    simp at h2
  · rw [if_neg hc] at h
    have h1 := congrArg Prod.fst h
    have h2 := congrArg Prod.snd h
    dsimp only at h1 h2
    have h3 : st.maxIdDefinition + 1 = id := by
      injection h2 with h4
    rw [← h1, ← h3]
    exact ⟨rfl, rfl⟩

theorem add_video_ok {ex : Bool} {n : List Char} {st st1 : AlbumState} {id : Int}
    (h : add_video ex n st = (st1, .ok id)) :
    id = st.maxIdVideo + 1 ∧ st1.maxIdVideo = id := by
  rw [add_video] at h
  by_cases hc : ex = false
  · rw [if_pos hc] at h
    have h2 := congrArg Prod.snd h
    simp at h2
  · rw [if_neg hc] at h
    have h1 := congrArg Prod.fst h
    have h2 := congrArg Prod.snd h
    dsimp only at h1 h2
    have h3 : st.maxIdVideo + 1 = id := by
      injection h2 with h4
    rw [← h1, ← h3]
    exact ⟨rfl, rfl⟩

theorem nodup_add_video (ex : Bool) (n : List Char) (st : AlbumState)
    (h : nodupNames st) : nodupNames (add_video ex n st).1 := by
  rw [add_video]
  split
  · exact h
  · refine ⟨?_, h.2⟩
    rw [List.map_append]
    simp only [List.map_cons, List.map_nil]
    rw [List.nodup_append]
    refine ⟨h.1, List.nodup_singleton _, ?_⟩
    intro x hx hx1
    simp only [List.mem_singleton] at hx1
    subst hx1
    exact resolveName_not_mem _ _ hx

theorem nodup_remove_crop_definition (i : Int) (st : AlbumState)
    (h : nodupNames st) : nodupNames (remove_crop_definition i st).1 := by
  rw [remove_crop_definition]
  split
  · exact h
  · dsimp only
    split
    · exact ⟨h.1, (st.images.filter_sublist.map _).nodup h.2⟩
    · exact ⟨h.1, h.2⟩

theorem nodup_removeDefsRun :
    ∀ (ids : List Int) (st : AlbumState), nodupNames st → nodupNames (removeDefsRun ids st).1 := by
  intro ids
  induction ids with
  | nil => intro st h; exact h
  | cons id rest ih =>
    intro st h
    rw [removeDefsRun]
    split
    · next st1 b heq =>
      have h1 := nodup_remove_crop_definition id st h
      rw [heq] at h1
      exact ih st1 h1
    · next st1 e heq =>
      have h1 := nodup_remove_crop_definition id st h
      rw [heq] at h1
      exact h1

theorem nodup_remove_video (i : Int) (st : AlbumState)
    (h : nodupNames st) : nodupNames (remove_video i st).1 := by
  rw [remove_video]
  split
  · exact h
  · dsimp only
    split
    · next st1 e heq =>
      have h1 := nodup_removeDefsRun
        ((st.definitions.filter (fun d => d.idVideo == i)).map (·.idDefinition)) st h
      rw [heq] at h1
      exact h1
    · next st1 heq =>
      have h1 := nodup_removeDefsRun
        ((st.definitions.filter (fun d => d.idVideo == i)).map (·.idDefinition)) st h
      rw [heq] at h1
      exact ⟨(st1.videos.filter_sublist.map _).nodup h1.1, h1.2⟩

theorem nodup_add_crop_definition (v : Int) (s : Int × Int × Int)
    (r : Option (Int × Int × Int × Int)) (d : String) (st : AlbumState)
    (h : nodupNames st) : nodupNames (add_crop_definition v s r d st).1 := by
  rw [add_crop_definition]
  split
  · exact h
  · exact ⟨h.1, h.2⟩

theorem nodup_do_crop (src : List Char → FrameSource) (i : Int) (st : AlbumState)
    (h : nodupNames st) : nodupNames (do_crop src i st).state := by
  rw [do_crop]
  dsimp only
  repeat' split
  all_goals
    first
      | exact h
      | exact ⟨h.1, h.2⟩
      | exact ⟨h.1, cropLoop_names_nodup _ _ _ _ _ _ _ _ _ (by simpa using h.2)⟩

theorem nodup_doCropListRun (src : List Char → FrameSource) :
    ∀ (ids : List Int) (st : AlbumState), nodupNames st →
      nodupNames (doCropListRun src ids st).1 := by
  intro ids
  induction ids with
  | nil => intro st h; exact h
  | cons id rest ih =>
    intro st h
    rw [doCropListRun]
    split
    · exact ih _ (nodup_do_crop src id st h)
    · exact nodup_do_crop src id st h

theorem nodup_do_crop_all (src : List Char → FrameSource) (st : AlbumState)
    (h : nodupNames st) : nodupNames (do_crop_all src st).1 := by
  rw [do_crop_all]
  split
  · next st1 heq =>
    have h1 := nodup_doCropListRun src (pendingIds st) st h
    rw [heq] at h1
    exact h1
  · next st1 e heq =>
    have h1 := nodup_doCropListRun src (pendingIds st) st h
    rw [heq] at h1
    exact h1

theorem nodup_applyOp (op : AlbumOp) (st : AlbumState)
    (h : nodupNames st) : nodupNames (applyOp op st) := by
  cases op with
  | addVideo ex n => exact nodup_add_video ex n st h
  | removeVideo i => exact nodup_remove_video i st h
  | addCropDefinition v s r d => exact nodup_add_crop_definition v s r d st h
  | removeCropDefinition i => exact nodup_remove_crop_definition i st h
  | doCrop src i => exact nodup_do_crop src i st h
  | doCropAll src => exact nodup_do_crop_all src st h

theorem nodup_applyOps :
    ∀ (ops : List AlbumOp) (st : AlbumState), nodupNames st →
      nodupNames (applyOps ops st) := by
  intro ops
  induction ops with
  | nil => intro st h; exact h
  | cons op rest ih =>
    intro st h
    exact ih (applyOp op st) (nodup_applyOp op st h)

/-- C1: If an unrecoverable (non-per-frame) failure is thrown during the
extraction loop of `do_crop`, the whole run is rolled back: the reached state
equals the starting state exactly — every Image row inserted during the run is
discarded, the image-identifier counter is restored to its pre-run value, and
the definition's `done` flag is still false — yet the call still returns
success (`True`). -/
theorem do_crop_unrecoverable_failure_rolls_back
    (src : List Char → FrameSource) (idDefinition : Int)
    (st : AlbumState) (defn : CropDef) (video : VideoRow)
    (hdef : st.definitions.find? (fun d => d.idDefinition == idDefinition) = some defn)
    (hdone : defn.done = false)
    (hvid : st.videos.find? (fun v => v.idVideo == defn.idVideo) = some video)
    (hopen : (src video.nameVideo).opened = true)
    (hrect :
      ¬((effectiveRect defn.rect (src video.nameVideo).width (src video.nameVideo).height).2.2.1
          ≤ (effectiveRect defn.rect (src video.nameVideo).width (src video.nameVideo).height).1
        ∨ (effectiveRect defn.rect (src video.nameVideo).width (src video.nameVideo).height).2.2.2
          ≤ (effectiveRect defn.rect (src video.nameVideo).width (src video.nameVideo).height).2.1))
    (hrange : ¬(defn.indexStart < 0 ∨ defn.stepIndex < 1))
    (hfatal : ∃ idx ∈ pyRange defn.indexStart
        (min defn.indexEnd (src video.nameVideo).frameCount) defn.stepIndex,
        (src video.nameVideo).events idx = .fatal) :
    (do_crop src idDefinition st).state = st ∧
      (do_crop src idDefinition st).result = .ok true := by
  rw [do_crop_eq_run src idDefinition st defn video hdef hdone hvid hopen hrect hrange]
  dsimp only
  rw [if_pos (cropLoop_fatal_of_mem _ _ _ _ _ _ _ _ _ hfatal)]
  exact ⟨rfl, rfl⟩

theorem do_crop_unrecoverable_failure_rolls_back_witness :
    (do_crop (fun _ => ⟨true, 5, 10, 10, fun i => if i = 1 then .fatal else .ok⟩) 0
        ⟨[⟨0, ['v']⟩], [⟨0, 0, "", false, 0, 3, 1, none⟩], [], 0, 0, -1⟩).state
      = ⟨[⟨0, ['v']⟩], [⟨0, 0, "", false, 0, 3, 1, none⟩], [], 0, 0, -1⟩ ∧
    (do_crop (fun _ => ⟨true, 5, 10, 10, fun i => if i = 1 then .fatal else .ok⟩) 0
        ⟨[⟨0, ['v']⟩], [⟨0, 0, "", false, 0, 3, 1, none⟩], [], 0, 0, -1⟩).result
      = .ok true :=
  do_crop_unrecoverable_failure_rolls_back
    (fun _ => ⟨true, 5, 10, 10, fun i => if i = 1 then .fatal else .ok⟩) 0
    ⟨[⟨0, ['v']⟩], [⟨0, 0, "", false, 0, 3, 1, none⟩], [], 0, 0, -1⟩
    ⟨0, 0, "", false, 0, 3, 1, none⟩ ⟨0, ['v']⟩
    (by decide) rfl (by decide) rfl (by decide) (by decide) (by decide)

/-- C2: For a crop definition with `start >= 0` and `step >= 1` whose run is
not interrupted, the set of frame indices at which a read is attempted is
exactly the arithmetic progression from `start` with stride `step`
intersected with `[0, min(end, frameCount))`. -/
theorem do_crop_sampled_frames_exact
    (src : List Char → FrameSource) (idDefinition : Int)
    (st : AlbumState) (defn : CropDef) (video : VideoRow)
    (hdef : st.definitions.find? (fun d => d.idDefinition == idDefinition) = some defn)
    (hdone : defn.done = false)
    (hvid : st.videos.find? (fun v => v.idVideo == defn.idVideo) = some video)
    (hopen : (src video.nameVideo).opened = true)
    (hrect :
      ¬((effectiveRect defn.rect (src video.nameVideo).width (src video.nameVideo).height).2.2.1
          ≤ (effectiveRect defn.rect (src video.nameVideo).width (src video.nameVideo).height).1
        ∨ (effectiveRect defn.rect (src video.nameVideo).width (src video.nameVideo).height).2.2.2
          ≤ (effectiveRect defn.rect (src video.nameVideo).width (src video.nameVideo).height).2.1))
    (hrange : ¬(defn.indexStart < 0 ∨ defn.stepIndex < 1))
    (hnofatal : ∀ idx ∈ pyRange defn.indexStart
        (min defn.indexEnd (src video.nameVideo).frameCount) defn.stepIndex,
        (src video.nameVideo).events idx ≠ .fatal) :
    ∀ idx : Int,
      idx ∈ (do_crop src idDefinition st).reads ↔
        ((∃ k : Nat, idx = defn.indexStart + (k : Int) * defn.stepIndex) ∧
          0 ≤ idx ∧ idx < min defn.indexEnd (src video.nameVideo).frameCount) := by
  push_neg at hrange
  obtain ⟨hstart, hstep⟩ := hrange
  have hrange2 : ¬(defn.indexStart < 0 ∨ defn.stepIndex < 1) := by omega
  have hreads : (do_crop src idDefinition st).reads
      = pyRange defn.indexStart
          (min defn.indexEnd (src video.nameVideo).frameCount) defn.stepIndex := by
    rw [do_crop_eq_run src idDefinition st defn video hdef hdone hvid hopen hrect hrange2]
    dsimp only
    rw [apply_ite CropOutcome.reads]
    dsimp only
    rw [ite_self]
    exact cropLoop_reads_of_no_fatal _ _ _ _ _ _ _ _ _ hnofatal
  intro idx
  rw [hreads, mem_pyRange (by omega)]
  constructor
  · rintro ⟨⟨k, hk⟩, hlt⟩
    refine ⟨⟨k, hk⟩, ?_, hlt⟩
    have hkk : (0 : Int) ≤ (k : Int) * defn.stepIndex :=
      mul_nonneg (by positivity) (by omega)
    linarith
  · rintro ⟨⟨k, hk⟩, _, hlt⟩
    exact ⟨⟨k, hk⟩, hlt⟩

theorem do_crop_sampled_frames_exact_witness :
    (7 : Int) ∈ (do_crop (fun _ => ⟨true, 10, 4, 4, fun _ => .ok⟩) 0
        ⟨[⟨0, ['v']⟩], [⟨0, 0, "", false, 1, 20, 3, none⟩], [], 0, 0, -1⟩).reads ↔
      ((∃ k : Nat, (7 : Int) = 1 + (k : Int) * 3) ∧
        (0 : Int) ≤ 7 ∧ (7 : Int) < min 20 10) :=
  do_crop_sampled_frames_exact
    (fun _ => ⟨true, 10, 4, 4, fun _ => .ok⟩) 0
    ⟨[⟨0, ['v']⟩], [⟨0, 0, "", false, 1, 20, 3, none⟩], [], 0, 0, -1⟩
    ⟨0, 0, "", false, 1, 20, 3, none⟩ ⟨0, ['v']⟩
    (by decide) rfl (by decide) rfl (by decide) (by decide) (by decide) 7

/-- C3: Invoking `do_crop` on a definition whose `done` flag is true is a
no-op that returns `True`: no frame is read, no Image row or identifier is
created, and the catalog state is unchanged; hence a second execution on the
resulting state yields exactly the same outcome as the first. -/
theorem do_crop_done_is_noop
    (src : List Char → FrameSource) (idDefinition : Int)
    (st : AlbumState) (defn : CropDef)
    (hdef : st.definitions.find? (fun d => d.idDefinition == idDefinition) = some defn)
    (hdone : defn.done = true) :
    do_crop src idDefinition st = ⟨st, .ok true, []⟩ ∧
      ∀ (st2 : AlbumState) (r : List Int),
        do_crop src idDefinition st = ⟨st2, .ok true, r⟩ →
        do_crop src idDefinition st2 = do_crop src idDefinition st := by
  have h1 : do_crop src idDefinition st = ⟨st, .ok true, []⟩ := by
    rw [do_crop, hdef]
    dsimp only
    rw [hdone, if_pos rfl]
  refine ⟨h1, ?_⟩
  intro st2 r heq
  rw [h1] at heq
  have h2 : st = st2 := congrArg CropOutcome.state heq
  rw [← h2]

theorem do_crop_done_is_noop_witness :
    do_crop (fun _ => ⟨true, 5, 10, 10, fun _ => .ok⟩) 0
        ⟨[⟨0, ['v']⟩], [⟨0, 0, "", true, 0, 3, 1, none⟩], [⟨0, 0, ['i'], 0⟩], 0, 0, 0⟩
      = ⟨⟨[⟨0, ['v']⟩], [⟨0, 0, "", true, 0, 3, 1, none⟩], [⟨0, 0, ['i'], 0⟩], 0, 0, 0⟩,
          .ok true, []⟩ :=
  (do_crop_done_is_noop (fun _ => ⟨true, 5, 10, 10, fun _ => .ok⟩) 0
    ⟨[⟨0, ['v']⟩], [⟨0, 0, "", true, 0, 3, 1, none⟩], [⟨0, 0, ['i'], 0⟩], 0, 0, 0⟩
    ⟨0, 0, "", true, 0, 3, 1, none⟩ (by decide) rfl).1

/-- C4 counterexample: `do_crop_all` does not continue past a failing
definition.  With two not-done definitions where the first raises
`EmptyCropRegion`, the sweep propagates the error instead of returning
`True`, and the second definition is never executed (its `done` flag stays
false and no image is produced). -/
theorem do_crop_all_does_not_continue_past_failure :
    (do_crop_all (fun _ => ⟨true, 5, 10, 10, fun _ => .ok⟩)
        ⟨[⟨0, ['v']⟩],
          [⟨0, 0, "", false, 0, 3, 1, some (100, 100, 100, 200)⟩,
            ⟨1, 0, "", false, 0, 3, 1, none⟩],
          [], 0, 1, -1⟩).2
      = .error "矩形で切り出す範囲が0px以下になっています" ∧
    (do_crop_all (fun _ => ⟨true, 5, 10, 10, fun _ => .ok⟩)
        ⟨[⟨0, ['v']⟩],
          [⟨0, 0, "", false, 0, 3, 1, some (100, 100, 100, 200)⟩,
            ⟨1, 0, "", false, 0, 3, 1, none⟩],
          [], 0, 1, -1⟩).1.definitions.map (·.done) = [false, false] ∧
    (do_crop_all (fun _ => ⟨true, 5, 10, 10, fun _ => .ok⟩)
        ⟨[⟨0, ['v']⟩],
          [⟨0, 0, "", false, 0, 3, 1, some (100, 100, 100, 200)⟩,
            ⟨1, 0, "", false, 0, 3, 1, none⟩],
          [], 0, 1, -1⟩).1.images = [] :=
  ⟨by decide, by decide, by decide⟩

/-- C4 (amended): `do_crop_all` runs `do_crop` once per definition with
`done=false`, in order; when it returns a value that value is `True`, but an
exception raised by one `do_crop` call propagates immediately and the
remaining definitions of the sweep are not attempted. -/
theorem do_crop_all_propagates_error (src : List Char → FrameSource) (st : AlbumState) :
    (∀ b : Bool, (do_crop_all src st).2 = .ok b → b = true) ∧
    (∀ (id : Int) (rest : List Int) (e : String),
      pendingIds st = id :: rest →
      (do_crop src id st).result = .error e →
      do_crop_all src st = ((do_crop src id st).state, .error e)) := by
  constructor
  · intro b hb
    rw [do_crop_all] at hb
    split at hb
    · dsimp only at hb
      injection hb with hb2
      exact hb2.symm
    · dsimp only at hb
      exact absurd hb (by simp)
  · intro id rest e hpend herr
    rw [do_crop_all, hpend, doCropListRun, herr]

theorem do_crop_all_propagates_error_witness :
    do_crop_all (fun _ => ⟨true, 5, 10, 10, fun _ => .ok⟩)
        ⟨[⟨0, ['v']⟩],
          [⟨0, 0, "", false, 0, 3, 1, some (100, 100, 100, 200)⟩,
            ⟨1, 0, "", false, 0, 3, 1, none⟩],
          [], 0, 1, -1⟩
      = ((do_crop (fun _ => ⟨true, 5, 10, 10, fun _ => .ok⟩) 0
            ⟨[⟨0, ['v']⟩],
              [⟨0, 0, "", false, 0, 3, 1, some (100, 100, 100, 200)⟩,
                ⟨1, 0, "", false, 0, 3, 1, none⟩],
              [], 0, 1, -1⟩).state,
          .error "矩形で切り出す範囲が0px以下になっています") :=
  (do_crop_all_propagates_error (fun _ => ⟨true, 5, 10, 10, fun _ => .ok⟩)
      ⟨[⟨0, ['v']⟩],
        [⟨0, 0, "", false, 0, 3, 1, some (100, 100, 100, 200)⟩,
          ⟨1, 0, "", false, 0, 3, 1, none⟩],
        [], 0, 1, -1⟩).2
    0 [1] "矩形で切り出す範囲が0px以下になっています" (by decide) (by decide)

/-- C5 counterexample: file-name uniqueness does not survive row deletion.
Adding `a.mp4`, removing the video, and adding `a.mp4` again stores the very
same name `a.mp4`, not a fresh distinct one: the collision check queries only
the rows currently present. -/
theorem video_name_reused_after_removal :
    (add_video true ['a', '.', 'm', 'p', '4']
        ((remove_video 0
          ((add_video true ['a', '.', 'm', 'p', '4']
            ⟨[], [], [], -1, -1, -1⟩).1)).1)).1.videos.map (·.nameVideo)
      = [['a', '.', 'm', 'p', '4']] := by decide

/-- C5 (amended): file names are pairwise distinct within each namespace
among the rows currently present — every operation sequence preserves
`nodupNames` — but uniqueness is not maintained against names of rows that
have been deleted. -/
theorem names_unique_among_current_rows
    (ops : List AlbumOp) (st : AlbumState) (h : nodupNames st) :
    nodupNames (applyOps ops st) :=
  nodup_applyOps ops st h

theorem names_unique_among_current_rows_witness :
    nodupNames (applyOps
      [.addVideo true ['a', '.', 'm', 'p', '4'], .addVideo true ['a', '.', 'm', 'p', '4']]
      ⟨[], [], [], -1, -1, -1⟩) :=
  names_unique_among_current_rows
    [.addVideo true ['a', '.', 'm', 'p', '4'], .addVideo true ['a', '.', 'm', 'p', '4']]
    ⟨[], [], [], -1, -1, -1⟩ ⟨by decide, by decide⟩

/-- C6: the naming-resolution loop never returns a name the existence check
reports as taken, and with `a.jpg` and `a(1).jpg` taken, resolving `a.jpg`
yields `a(2).jpg`. -/
theorem resolver_never_returns_taken_name :
    (∀ (taken : List (List Char)) (name : List Char),
      taken.contains (resolveName taken name) = false) ∧
    resolveName ["a.jpg".data, "a(1).jpg".data] "a.jpg".data = "a(2).jpg".data :=
  ⟨resolveName_not_taken, by decide⟩

/-- C7 (evaluation of the code at the failing input): for a desired name with
no `.`, the collision loop does not append the `"(n)"` suffix to the whole
name; `rfind` returns `-1` and the Python negative-index slices insert the
suffix before the last character, so a taken `clip` resolves to `cli(1)p`,
not `clip(1)`. -/
theorem no_extension_suffix_misplaced :
    (add_video true ['c', 'l', 'i', 'p']
        ⟨[⟨0, ['c', 'l', 'i', 'p']⟩], [], [], 0, -1, -1⟩).1.videos.map (·.nameVideo)
      = [['c', 'l', 'i', 'p'], ['c', 'l', 'i', '(', '1', ')', 'p']] ∧
    (resolveName [['c', 'l', 'i', 'p']] ['c', 'l', 'i', 'p']
        == ['c', 'l', 'i', 'p', '(', '1', ')']) = false :=
  ⟨by decide, by decide⟩

/-- C8: the effective rectangle clamps the definition's rectangle to the
frame — for an `800x600` frame the requested `(-10, 50, 900, 550)` becomes
`(0, 50, 800, 550)`, and an absent rectangle means the full frame — and a
clamped rectangle with non-positive width or height makes `do_crop` fail with
the empty-crop-region error before any frame is read (the read trace is
empty). -/
theorem effective_rect_clamped_and_empty_fails :
    effectiveRect (some (-10, 50, 900, 550)) 800 600 = (0, 50, 800, 550) ∧
    (∀ w h : Int, effectiveRect none w h = (0, 0, w, h)) ∧
    (∀ (src : List Char → FrameSource) (idDefinition : Int) (st : AlbumState)
        (defn : CropDef) (video : VideoRow),
      st.definitions.find? (fun d => d.idDefinition == idDefinition) = some defn →
      defn.done = false →
      st.videos.find? (fun v => v.idVideo == defn.idVideo) = some video →
      (src video.nameVideo).opened = true →
      ((effectiveRect defn.rect (src video.nameVideo).width (src video.nameVideo).height).2.2.1
          ≤ (effectiveRect defn.rect (src video.nameVideo).width (src video.nameVideo).height).1
        ∨ (effectiveRect defn.rect (src video.nameVideo).width (src video.nameVideo).height).2.2.2
          ≤ (effectiveRect defn.rect (src video.nameVideo).width (src video.nameVideo).height).2.1) →
      do_crop src idDefinition st =
        ⟨st, .error "矩形で切り出す範囲が0px以下になっています", []⟩) := by
  refine ⟨by decide, fun w h => rfl, ?_⟩
  intro src idDefinition st defn video hdef hdone hvid hopen hrect
  rw [do_crop, hdef]
  dsimp only
  rw [hdone, hvid]
  dsimp only
  rw [hopen]
  rw [if_pos hrect]
  simp

theorem effective_rect_clamped_and_empty_fails_witness :
    do_crop (fun _ => ⟨true, 5, 800, 600, fun _ => .ok⟩) 0
        ⟨[⟨0, ['v']⟩], [⟨0, 0, "", false, 0, 3, 1, some (100, 100, 100, 200)⟩], [], 0, 0, -1⟩
      = ⟨⟨[⟨0, ['v']⟩], [⟨0, 0, "", false, 0, 3, 1, some (100, 100, 100, 200)⟩], [], 0, 0, -1⟩,
          .error "矩形で切り出す範囲が0px以下になっています", []⟩ :=
  effective_rect_clamped_and_empty_fails.2.2
    (fun _ => ⟨true, 5, 800, 600, fun _ => .ok⟩) 0
    ⟨[⟨0, ['v']⟩], [⟨0, 0, "", false, 0, 3, 1, some (100, 100, 100, 200)⟩], [], 0, 0, -1⟩
    ⟨0, 0, "", false, 0, 3, 1, some (100, 100, 100, 200)⟩ ⟨0, ['v']⟩
    (by decide) rfl (by decide) rfl (by decide)

/-- C9: identifier allocation is monotone for every entity kind across any
operation sequence — no identifier is ever reused after a deletion — and in
particular a crop definition (or video) created after another one, with any
operations including removals in between, always receives a strictly greater
identifier. -/
theorem identifiers_monotone_never_reused (st : AlbumState) (ops : List AlbumOp) :
    countersLe st (applyOps ops st) ∧
    (∀ (v1 : Int) (s1 : Int × Int × Int) (r1 : Option (Int × Int × Int × Int)) (d1 : String)
        (st1 : AlbumState) (id1 : Int)
        (v2 : Int) (s2 : Int × Int × Int) (r2 : Option (Int × Int × Int × Int)) (d2 : String)
        (st2 : AlbumState) (id2 : Int),
      add_crop_definition v1 s1 r1 d1 st = (st1, .ok id1) →
      add_crop_definition v2 s2 r2 d2 (applyOps ops st1) = (st2, .ok id2) →
      id1 < id2) ∧
    (∀ (e1 : Bool) (n1 : List Char) (st1 : AlbumState) (id1 : Int)
        (e2 : Bool) (n2 : List Char) (st2 : AlbumState) (id2 : Int),
      add_video e1 n1 st = (st1, .ok id1) →
      add_video e2 n2 (applyOps ops st1) = (st2, .ok id2) →
      id1 < id2) := by
  refine ⟨counters_applyOps ops st, ?_, ?_⟩
  · intro v1 s1 r1 d1 st1 id1 v2 s2 r2 d2 st2 id2 h1 h2
    obtain ⟨ha, hb⟩ := add_crop_definition_ok h1
    obtain ⟨hc, _⟩ := add_crop_definition_ok h2
    have hm := (counters_applyOps ops st1).2.1
    omega
  · intro e1 n1 st1 id1 e2 n2 st2 id2 h1 h2
    obtain ⟨ha, hb⟩ := add_video_ok h1
    obtain ⟨hc, _⟩ := add_video_ok h2
    have hm := (counters_applyOps ops st1).1
    omega

theorem identifiers_monotone_never_reused_witness : (5 : Int) < 6 :=
  (identifiers_monotone_never_reused ⟨[⟨0, ['v']⟩], [], [], 0, 4, -1⟩
      [.removeCropDefinition 5]).2.1
    0 (0, 1, 1) none ""
    ⟨[⟨0, ['v']⟩], [⟨5, 0, "", false, 0, 1, 1, none⟩], [], 0, 5, -1⟩ 5
    0 (0, 1, 1) none ""
    ⟨[⟨0, ['v']⟩], [⟨6, 0, "", false, 0, 1, 1, none⟩], [], 0, 6, -1⟩ 6
    (by decide) (by decide)

/-- C10: `add_crop_definition` validates nothing beyond the existence of the
owning video: for any existing video id, every slice triple (negative start,
step below one, end below start included) and every rectangle is accepted and
persisted verbatim with `done=false`; such values are only rejected later,
when `do_crop` runs the definition and raises the invalid-frame-range
error. -/
theorem add_crop_definition_accepts_anything :
    (∀ (st : AlbumState) (idVideo : Int) (slice : Int × Int × Int)
        (rect : Option (Int × Int × Int × Int)) (descr : String),
      (st.videos.filter (fun v => v.idVideo == idVideo)).isEmpty = false →
      add_crop_definition idVideo slice rect descr st =
        ({ st with
            definitions := st.definitions ++
              [⟨st.maxIdDefinition + 1, idVideo, descr, false,
                slice.1, slice.2.1, slice.2.2, rect⟩],
            maxIdDefinition := st.maxIdDefinition + 1 },
          .ok (st.maxIdDefinition + 1))) ∧
    (∀ (src : List Char → FrameSource) (idDefinition : Int) (st : AlbumState)
        (defn : CropDef) (video : VideoRow),
      st.definitions.find? (fun d => d.idDefinition == idDefinition) = some defn →
      defn.done = false →
      st.videos.find? (fun v => v.idVideo == defn.idVideo) = some video →
      (src video.nameVideo).opened = true →
      ¬((effectiveRect defn.rect (src video.nameVideo).width (src video.nameVideo).height).2.2.1
          ≤ (effectiveRect defn.rect (src video.nameVideo).width (src video.nameVideo).height).1
        ∨ (effectiveRect defn.rect (src video.nameVideo).width (src video.nameVideo).height).2.2.2
          ≤ (effectiveRect defn.rect (src video.nameVideo).width (src video.nameVideo).height).2.1) →
      (defn.indexStart < 0 ∨ defn.stepIndex < 1) →
      do_crop src idDefinition st =
        ⟨st, .error "切り出しフレーム番号の指定が不正です", []⟩) := by
  constructor
  · intro st idVideo slice rect descr hne
    rw [add_crop_definition, if_neg (by rw [hne]; exact Bool.false_ne_true)]
  · intro src idDefinition st defn video hdef hdone hvid hopen hrect hbad
    rw [do_crop, hdef]
    dsimp only
    rw [hdone, hvid]
    dsimp only
    rw [hopen]
    rw [if_neg hrect, if_pos hbad]
    simp

theorem add_crop_definition_accepts_anything_witness :
    add_crop_definition 0 (-5, 10, 0) none "" ⟨[⟨0, ['v']⟩], [], [], 0, -1, -1⟩
        = (⟨[⟨0, ['v']⟩], [⟨0, 0, "", false, -5, 10, 0, none⟩], [], 0, 0, -1⟩, .ok 0) ∧
    do_crop (fun _ => ⟨true, 5, 10, 10, fun _ => .ok⟩) 0
        ⟨[⟨0, ['v']⟩], [⟨0, 0, "", false, -5, 10, 0, none⟩], [], 0, 0, -1⟩
      = ⟨⟨[⟨0, ['v']⟩], [⟨0, 0, "", false, -5, 10, 0, none⟩], [], 0, 0, -1⟩,
          .error "切り出しフレーム番号の指定が不正です", []⟩ :=
  ⟨add_crop_definition_accepts_anything.1 ⟨[⟨0, ['v']⟩], [], [], 0, -1, -1⟩
      0 (-5, 10, 0) none "" (by decide),
    add_crop_definition_accepts_anything.2 (fun _ => ⟨true, 5, 10, 10, fun _ => .ok⟩) 0
      ⟨[⟨0, ['v']⟩], [⟨0, 0, "", false, -5, 10, 0, none⟩], [], 0, 0, -1⟩
      ⟨0, 0, "", false, -5, 10, 0, none⟩ ⟨0, ['v']⟩
      (by decide) rfl (by decide) rfl (by decide) (by decide)⟩

end VideoKnife
